import Mathlib

/-!
Verification development for the sandbox command executor (`src/lib.rs`).

The executor stages whitelisted files into a fresh temporary directory,
runs a command with that directory as its working directory, and cleans
the directory up afterwards.  We model paths as lists of components, the
filesystem as an association list from normalized absolute paths to file
contents, and the process launcher as an abstract function from command,
working directory and filesystem to a captured output (or a launch error).
-/

set_option autoImplicit false

namespace Sandbox

/-- A filesystem path, as its list of components below the root. -/
abbrev Path := List String

/-- The filesystem: an association list from normalized absolute paths of
regular files to their contents.  The first matching key wins on lookup,
so consing a pair onto the list models overwriting that path. -/
abbrev FS := List (Path × String)

/-- Look a path up in the filesystem (first match wins). -/
def lookupFS (fs : FS) (p : Path) : Option String :=
  match fs with
  | [] => none
  | (q, c) :: rest => if q = p then some c else lookupFS rest p

/-- Component-wise test that `base` is a leading run of the components of
`p` (the lexical test underlying Rust `Path::starts_with`). -/
def hasPref (base p : Path) : Bool :=
  match base, p with
  | [], _ => true
  | _ :: _, [] => false
  | b :: bs, c :: cs => if c = b then hasPref bs cs else false

/-- Model of Rust `Path::strip_prefix`: purely lexical component matching,
with no normalization of `.` or `..` components. -/
def stripPref (p base : Path) : Option Path :=
  match base, p with
  | [], rest => some rest
  | _ :: _, [] => none
  | b :: bs, c :: cs => if c = b then stripPref cs bs else none

/-- One step of path normalization: `.` is dropped, `..` pops the last
component already accepted (staying at the root when there is none). -/
def normStep (acc : Path) (c : String) : Path :=
  if c = "." then acc
  else if c = ".." then acc.dropLast
  else acc ++ [c]

/-- Resolve `.` and `..` components the way the operating system does when
it opens an absolute path (the model has no symlinks). -/
def normalize (p : Path) : Path :=
  p.foldl normStep []

/-- A path with no `.` or `..` components; such a path is already in
normal form. -/
def cleanPath (p : Path) : Bool :=
  p.all (fun c => c ≠ "." && c ≠ "..")

/-- Render a path the way Rust debug-formats it in error messages. -/
def showPath (p : Path) : String :=
  "/" ++ String.intercalate "/" p

/-- Recursive removal of a directory: drop every file whose normalized
path lies below `base`.  This models the `Drop` of `tempfile::TempDir`. -/
def removeUnder (base : Path) (fs : FS) : FS :=
  fs.filter (fun e => !(hasPref base e.fst))

/-- The temporary directory is fresh: no file of `fs` lies below it. -/
def freshUnder (base : Path) (fs : FS) : Bool :=
  fs.all (fun e => !(hasPref base e.fst))

/-- Captured output of a process that was launched and ran to completion:
its exit classification and the fully captured stdout and stderr. -/
structure ProcOutput where
  success : Bool
  stdout : String
  stderr : String
  deriving DecidableEq, Repr

/-- Abstract process launcher (the model of `std::process::Command` plus
the operating system).  It receives the full argument vector, the working
directory of the child, and the filesystem as the child sees it; it
returns the captured output, or `.error cause` when the process could not
be launched at all (executable not found, permission denied). -/
abbrev Launcher := List String → Path → FS → Except String ProcOutput

/-- The error cases surfaced by `execute`, mirroring the `anyhow` contexts
attached in `src/lib.rs`. -/
inductive ExecError where
  /-- The error attached when `strip_prefix` fails: the file is not
  within the working directory. -/
  | notWithinWorkingDir (file : Path)
  /-- The error attached when `fs::copy` fails for a source file. -/
  | copyFailed (file : Path)
  /-- The error attached when `Command::output` itself errors. -/
  | launchFailed (cause : String)
  /-- The error produced by `bail!` when the child exits unsuccessfully;
  it carries the captured stderr text. -/
  | commandFailed (stderr : String)
  deriving DecidableEq, Repr

/-- The diagnostic string of each error, following the format strings of
`src/lib.rs` (context message, then the underlying cause). -/
def ExecError.diagnostic : ExecError → String
  | .notWithinWorkingDir f => "File " ++ showPath f ++ " is not within the working directory"
  | .copyFailed f => "Failed to copy file: " ++ showPath f
  | .launchFailed cause => "Failed to execute command: " ++ cause
  | .commandFailed stderr => "Command failed: " ++ stderr

/-- The value `execute` hands back to its caller: `ok` models `Ok(())`
(note that it carries nothing), `err` models an `anyhow` error, and
`panicked` models a Rust panic such as an out-of-bounds index. -/
inductive ExecOutcome where
  | ok
  | err (e : ExecError)
  | panicked (msg : String)
  deriving DecidableEq, Repr

/-- The full observable effect of one call to `execute`: the value
returned to the caller, the lines the call printed to the console with
`println!`, and the filesystem after the call. -/
structure ExecResult where
  outcome : ExecOutcome
  printed : List String
  fs : FS
  deriving DecidableEq, Repr

/-- The staging loop of `execute` (`for file in files` in `src/lib.rs`):
for each file, strip the working-directory prefix lexically (bailing out
with `notWithinWorkingDir` when that fails), then copy the bytes of the
source file to the temporary directory at that relative path (bailing out
with `copyFailed` when the source cannot be read, for example because it
does not exist or is a directory).  Parent directories are implicit in the
file-map model, so `create_dir_all` has no observable effect.  The
returned filesystem reflects however much staging happened before the
first error. -/
def stageFiles (workingDir tmp : Path) (files : List Path) (fs : FS) :
    Option ExecError × FS :=
  match files with
  | [] => (none, fs)
  | f :: rest =>
    match stripPref f workingDir with
    | none => (some (.notWithinWorkingDir f), fs)
    | some rel =>
      match lookupFS fs (normalize f) with
      | none => (some (.copyFailed f), fs)
      | some content =>
        stageFiles workingDir tmp rest ((normalize (tmp ++ rel), content) :: fs)

/-- The second half of `execute`: index `command[0]` (a panic when the
command is empty), launch the child with the temporary directory as its
working directory, and classify the captured output exactly as
`src/lib.rs` does — success prints two lines and returns `Ok(())`,
failure bails with the captured stderr embedded in the message. -/
def processPhase (run : Launcher) (command : List String) (tmp : Path)
    (fs : FS) : ExecOutcome × List String :=
  match command with
  | [] => (.panicked "index out of bounds: the len is 0 but the index is 0", [])
  | _ :: _ =>
    match run command tmp fs with
    | .error cause => (.err (.launchFailed cause), [])
    | .ok out =>
      if out.success then
        (.ok, ["Command executed successfully", "Output: " ++ out.stdout])
      else
        (.err (.commandFailed out.stderr), [])

/-- Model of `LinuxCommandExecutor::execute`.  Beyond the Rust arguments
(`command`, `files`, `workingDir`), the model makes the ambient world
explicit: `run` is the process launcher, `tmp` is the fresh path the
operating system hands out for the temporary directory (its creation is
modeled as succeeding), and `fs` is the filesystem.  On every path the
temporary directory is recursively removed before returning, which models
the scoped `Drop` of `TempDir` (Rust also runs it during the unwind of
the empty-command panic). -/
def execute (run : Launcher) (command : List String) (files : List Path)
    (workingDir tmp : Path) (fs : FS) : ExecResult :=
  match stageFiles workingDir tmp files fs with
  | (some e, fs1) =>
    { outcome := .err e, printed := [], fs := removeUnder tmp fs1 }
  | (none, fs1) =>
    let step := processPhase run command tmp fs1
    { outcome := step.fst, printed := step.snd, fs := removeUnder tmp fs1 }

/-- Split a list of characters on the slash character, accumulating the
current component in reverse. -/
def splitSlashAux : List Char → List Char → List String
  | [], cur => [String.mk cur.reverse]
  | c :: rest, cur =>
    if c = '/' then String.mk cur.reverse :: splitSlashAux rest []
    else splitSlashAux rest (c :: cur)

/-- Parse a command-line path argument as the operating system would:
the flag says whether the argument is absolute (starts with a slash),
and the path is its list of nonempty components. -/
def parsePath (s : String) : Bool × Path :=
  let comps := (splitSlashAux s.toList []).filter (fun t => t ≠ "")
  (s.toList.head? = some '/', comps)

/-- A launcher modeling the `cat` binary applied to one path argument:
an absolute argument is resolved against the filesystem root — the
working directory of the child plays no part — while a relative argument
is resolved against the working directory.  A resolvable file is printed
to stdout with exit success; otherwise `cat` reports on stderr and exits
nonzero. -/
def catRun : Launcher := fun cmd cwd fs =>
  match cmd with
  | ["cat", arg] =>
    let parsed := parsePath arg
    let full := if parsed.fst then parsed.snd else cwd ++ parsed.snd
    match lookupFS fs (normalize full) with
    | some content => .ok { success := true, stdout := content, stderr := "" }
    | none =>
      .ok { success := false, stdout := "",
            stderr := "cat: " ++ arg ++ ": No such file or directory" }
  | _ => .error "No such file or directory (os error 2)"

/-- A launcher whose child always exits successfully with the given
stdout text. -/
def constRun (stdout : String) : Launcher := fun _ _ _ =>
  .ok { success := true, stdout := stdout, stderr := "" }

/-- A launcher whose child always exits unsuccessfully with the given
stderr text. -/
def failRun (stderr : String) : Launcher := fun _ _ _ =>
  .ok { success := false, stdout := "", stderr := stderr }

/-- A launcher that always fails to launch with the given cause. -/
def noLaunchRun (cause : String) : Launcher := fun _ _ _ =>
  .error cause

/-- The executor itself, a unit struct holding no state. -/
inductive LinuxCommandExecutor where
  | mk
  deriving DecidableEq, Repr

/-- Model of `LinuxCommandExecutor::new`. -/
def LinuxCommandExecutor.new : LinuxCommandExecutor := .mk

/-! Helper lemmas about the path and filesystem primitives. -/

theorem lookupFS_cons (k : Path) (v : String) (fs : FS) (p : Path) :
    lookupFS ((k, v) :: fs) p = if k = p then some v else lookupFS fs p := rfl

theorem lookupFS_cons_ne (k : Path) (v : String) (fs : FS) (p : Path)
    (h : k ≠ p) : lookupFS ((k, v) :: fs) p = lookupFS fs p := by
  simp [lookupFS, h]

theorem lookupFS_append (l1 l2 : FS) (p : Path) :
    lookupFS (l1 ++ l2) p =
      match lookupFS l1 p with
      | some c => some c
      | none => lookupFS l2 p := by
  induction l1 with
  | nil => simp [lookupFS]
  | cons e rest ih =>
    rcases e with ⟨k, v⟩
    by_cases hk : k = p <;> simp [lookupFS, hk, ih]

theorem lookupFS_eq_none_of (l : FS) (p : Path)
    (h : ∀ e ∈ l, e.fst ≠ p) : lookupFS l p = none := by
  induction l with
  | nil => rfl
  | cons e rest ih =>
    rcases e with ⟨k, v⟩
    have hk : k ≠ p := h (k, v) (by simp)
    simp only [lookupFS, if_neg hk]
    exact ih (fun e he => h e (by simp [he]))

theorem mem_of_lookupFS (l : FS) (p : Path) (v : String)
    (h : lookupFS l p = some v) : (p, v) ∈ l := by
  induction l with
  | nil => simp [lookupFS] at h
  | cons e rest ih =>
    rcases e with ⟨k, c⟩
    by_cases hk : k = p
    · simp [lookupFS, hk] at h
      simp [hk, h]
    · simp only [lookupFS, if_neg hk] at h
      exact List.mem_cons_of_mem _ (ih h)

theorem lookupFS_const (l : FS) (p : Path) (v : String)
    (hall : ∀ e ∈ l, e.fst = p → e.snd = v)
    (hex : ∃ e ∈ l, e.fst = p) : lookupFS l p = some v := by
  induction l with
  | nil => simp at hex
  | cons e rest ih =>
    rcases e with ⟨k, c⟩
    by_cases hk : k = p
    · have : c = v := hall (k, c) (by simp) hk
      simp [lookupFS, hk, this]
    · simp only [lookupFS, if_neg hk]
      rcases hex with ⟨e, he, hep⟩
      rcases List.mem_cons.mp he with h1 | h1
      · subst h1
        exact absurd hep hk
      · exact ih (fun e he h => hall e (List.mem_cons_of_mem _ he) h) ⟨e, h1, hep⟩

theorem hasPref_append (base q : Path) : hasPref base (base ++ q) = true := by
  induction base with
  | nil => rfl
  | cons b bs ih => simp [hasPref, ih]

theorem stripPref_eq_append (p base rel : Path)
    (h : stripPref p base = some rel) : p = base ++ rel := by
  induction base generalizing p with
  | nil =>
    simp [stripPref] at h
    simp [h]
  | cons b bs ih =>
    cases p with
    | nil => simp [stripPref] at h
    | cons c cs =>
      by_cases hc : c = b
      · simp only [stripPref, if_pos hc] at h
        simp [hc, ih cs h]
      · simp [stripPref, hc] at h

theorem cleanPath_append (a b : Path) :
    cleanPath (a ++ b) = (cleanPath a && cleanPath b) := by
  simp [cleanPath, List.all_append]

theorem foldl_normStep_of_clean (p : Path) (acc : Path)
    (h : cleanPath p = true) : p.foldl normStep acc = acc ++ p := by
  induction p generalizing acc with
  | nil => simp
  | cons c rest ih =>
    have hc : (c ≠ "." && c ≠ "..") = true ∧ cleanPath rest = true := by
      simpa [cleanPath] using h
    have hc1 : c ≠ "." := by
      have := hc.1
      simp only [Bool.and_eq_true, decide_eq_true_eq] at this
      exact this.1
    have hc2 : c ≠ ".." := by
      have := hc.1
      simp only [Bool.and_eq_true, decide_eq_true_eq] at this
      exact this.2
    simp only [List.foldl_cons]
    rw [ih (normStep acc c) hc.2]
    simp [normStep, hc1, hc2]

theorem normalize_of_clean (p : Path) (h : cleanPath p = true) :
    normalize p = p := by
  simpa using foldl_normStep_of_clean p [] h

theorem freshUnder_removeUnder (base : Path) (fs : FS) :
    freshUnder base (removeUnder base fs) = true := by
  simp only [freshUnder, removeUnder, List.all_eq_true]
  intro e he
  exact (List.mem_filter.mp he).2

theorem stageFiles_append_eq (wd tmp : Path) (l1 l2 : List Path) (fs : FS) :
    stageFiles wd tmp (l1 ++ l2) fs =
      match stageFiles wd tmp l1 fs with
      | (some e, fs1) => (some e, fs1)
      | (none, fs1) => stageFiles wd tmp l2 fs1 := by
  induction l1 generalizing fs with
  | nil => simp [stageFiles]
  | cons f rest ih =>
    simp only [List.cons_append, stageFiles]
    cases hs : stripPref f wd with
    | none => simp
    | some rel =>
      cases hl : lookupFS fs (normalize f) with
      | none => simp
      | some content => simp [ih]

/-! Claim C7: the temporary directory is gone after every `execute`. -/

/-- Claim C7: on every path of `execute` — success, containment
violation, copy failure, launch failure, nonzero exit, and even the
empty-command panic — the returned filesystem holds no file below the
temporary directory: the SandboxInstance has been recursively removed. -/
theorem execute_removes_tempdir (run : Launcher) (command : List String)
    (files : List Path) (workingDir tmp : Path) (fs : FS) :
    freshUnder tmp (execute run command files workingDir tmp fs).fs = true := by
  cases hs : stageFiles workingDir tmp files fs with
  | mk e? fs1 => cases e? <;> simp [execute, hs, freshUnder_removeUnder]

/-! Claim C1: a `cat` of an absolute host path from inside the sandbox. -/

/-- Claim C1: at the exact scenario of the specification — the file
`/tmp/work/secret.txt` containing `hidden`, an empty `files` list, and
`command = cat /tmp/work/secret.txt` — `execute` is required to fail, but
the modelled code succeeds: the child resolves the absolute path
regardless of its working directory, prints the hidden content, and
`execute` returns `Ok`.  This is the divergence the repository's own test
`test_linux_command_executor_file_access` asserts against (and fails). -/
theorem cat_outside_file_succeeds :
    execute catRun ["cat", "/tmp/work/secret.txt"] [] ["tmp", "work"] ["sbx"]
      [(["tmp", "work", "secret.txt"], "hidden")] =
    { outcome := .ok,
      printed := ["Command executed successfully", "Output: hidden"],
      fs := [(["tmp", "work", "secret.txt"], "hidden")] } := by decide

/-! Claim C3: the empty command. -/

/-- Claim C3: for the empty command sequence the code does not return a
typed `InvalidCommand` failure; it indexes `command[0]` and panics, for
every launcher, working directory, temporary directory and filesystem
(shown here with the staging loop trivially succeeding on no files). -/
theorem empty_command_panics (run : Launcher) (workingDir tmp : Path)
    (fs : FS) :
    execute run [] [] workingDir tmp fs =
      { outcome := .panicked "index out of bounds: the len is 0 but the index is 0",
        printed := [],
        fs := removeUnder tmp fs } := by
  simp [execute, stageFiles, processPhase]

/-! Claim C2: the containment check. -/

/-- Claim C2 fails on the code: the file
`/tmp/work/../secret.txt` resolves, after normalization, to
`/tmp/secret.txt`, which is not a descendant of the root `/tmp/work` —
the claim demands an immediate `PathContainmentViolation`.  The code
checks only the lexical component run, accepts the file, and stages its
copy at `/secret.txt`, outside both the sandbox and the root, where it
survives the sandbox cleanup; the invocation then runs the command and
returns `Ok`. -/
theorem dotdot_escape_not_rejected :
    (execute (constRun "") ["true"] [["tmp", "work", "..", "secret.txt"]]
        ["tmp", "work"] ["sbx"] [(["tmp", "secret.txt"], "s")]).outcome =
      ExecOutcome.ok ∧
    lookupFS (execute (constRun "") ["true"] [["tmp", "work", "..", "secret.txt"]]
        ["tmp", "work"] ["sbx"] [(["tmp", "secret.txt"], "s")]).fs
      ["secret.txt"] = some "s" := by decide

/-- Claim C2 as amended: the containment check is lexical, not performed
on normalized paths.  Exactly when a file fails the component-wise
`strip_prefix` against the working directory does `execute` fail
immediately with the not-within-working-directory error; the failing
entry and every later entry are left unstaged (the final filesystem is
the cleanup of the world `fs1` reached after the earlier entries), and
the command is never launched — the result is the same for every
launcher.  Paths that lexically extend the root but escape it after `..`
normalization are accepted and staged, possibly outside the sandbox. -/
theorem lexical_containment_failure (run : Launcher) (command : List String)
    (pre post : List Path) (f : Path) (workingDir tmp : Path) (fs fs1 : FS)
    (hpre : stageFiles workingDir tmp pre fs = (none, fs1))
    (hf : stripPref f workingDir = none) :
    execute run command (pre ++ f :: post) workingDir tmp fs =
      { outcome := .err (.notWithinWorkingDir f),
        printed := [],
        fs := removeUnder tmp fs1 } := by
  have hstage : stageFiles workingDir tmp (pre ++ f :: post) fs =
      (some (.notWithinWorkingDir f), fs1) := by
    rw [stageFiles_append_eq, hpre]
    simp [stageFiles, hf]
  simp [execute, hstage]

/-- Witness for the amended claim C2: one file lexically outside the
root is rejected at once. -/
theorem lexical_containment_failure_witness :
    stageFiles ["tmp", "work"] ["sbx"] [] [(["etc", "passwd"], "root:x")] =
      (none, [(["etc", "passwd"], "root:x")]) ∧
    stripPref ["etc", "passwd"] ["tmp", "work"] = none ∧
    execute (constRun "") ["true"] ([] ++ ["etc", "passwd"] :: [["tmp", "work", "a"]])
        ["tmp", "work"] ["sbx"] [(["etc", "passwd"], "root:x")] =
      { outcome := .err (.notWithinWorkingDir ["etc", "passwd"]),
        printed := [],
        fs := removeUnder ["sbx"] [(["etc", "passwd"], "root:x")] } :=
  ⟨by decide, by decide,
    lexical_containment_failure (constRun "") ["true"] [] [["tmp", "work", "a"]]
      ["etc", "passwd"] ["tmp", "work"] ["sbx"] _ _ (by decide) (by decide)⟩

/-! Claim C10: a contained entry that is not a readable regular file. -/

/-- Claim C10: when an entry passes the lexical containment check but no
regular file exists at its resolved path (it does not exist, or it is a
directory — directories are not file-map entries and `fs::copy` refuses
them), `execute` fails with the copy error naming exactly that path, the
entry and all later entries are not staged, and the command is never
launched: the result is the same for every launcher and command.  The
diagnostic of the error names the offending path. -/
theorem copy_failure_aborts (run : Launcher) (command : List String)
    (pre post : List Path) (f rel : Path) (workingDir tmp : Path) (fs fs1 : FS)
    (hpre : stageFiles workingDir tmp pre fs = (none, fs1))
    (hstrip : stripPref f workingDir = some rel)
    (hmiss : lookupFS fs1 (normalize f) = none) :
    execute run command (pre ++ f :: post) workingDir tmp fs =
      { outcome := .err (.copyFailed f),
        printed := [],
        fs := removeUnder tmp fs1 } ∧
    (ExecError.copyFailed f).diagnostic = "Failed to copy file: " ++ showPath f := by
  have hstage : stageFiles workingDir tmp (pre ++ f :: post) fs =
      (some (.copyFailed f), fs1) := by
    rw [stageFiles_append_eq, hpre]
    simp [stageFiles, hstrip, hmiss]
  exact ⟨by simp [execute, hstage], rfl⟩

/-- Witness for claim C10: staging the directory `/tmp/work/d` (it has a
file below it but is itself not a regular file) fails with the copy
error, with no command launched. -/
theorem copy_failure_aborts_witness :
    stageFiles ["tmp", "work"] ["sbx"] [] [(["tmp", "work", "d", "x.txt"], "hi")] =
      (none, [(["tmp", "work", "d", "x.txt"], "hi")]) ∧
    stripPref ["tmp", "work", "d"] ["tmp", "work"] = some ["d"] ∧
    lookupFS [(["tmp", "work", "d", "x.txt"], "hi")] (normalize ["tmp", "work", "d"]) = none ∧
    (execute catRun ["cat", "x"] ([] ++ ["tmp", "work", "d"] :: [])
        ["tmp", "work"] ["sbx"] [(["tmp", "work", "d", "x.txt"], "hi")] =
      { outcome := .err (.copyFailed ["tmp", "work", "d"]),
        printed := [],
        fs := removeUnder ["sbx"] [(["tmp", "work", "d", "x.txt"], "hi")] } ∧
    (ExecError.copyFailed ["tmp", "work", "d"]).diagnostic =
      "Failed to copy file: " ++ showPath ["tmp", "work", "d"]) :=
  ⟨by decide, by decide, by decide,
    copy_failure_aborts catRun ["cat", "x"] [] [] ["tmp", "work", "d"] ["d"]
      ["tmp", "work"] ["sbx"] _ _ (by decide) (by decide) (by decide)⟩

/-! Claim C4: what a successful run returns to the caller. -/

/-- Claim C4 fails on the code: the value returned to the caller on
success is the bare `Ok(())`, which carries no stdout.  Two runs whose
children produce different captured stdout (`hello` and `bye`) return
identical values, so the returned result cannot deliver the stdout; the
output reaches only the console of the executor itself via `println!`. -/
theorem success_returns_unit :
    (execute (constRun "hello") ["x"] [] [] ["sbx"] []).outcome =
      (execute (constRun "bye") ["x"] [] [] ["sbx"] []).outcome ∧
    (execute (constRun "hello") ["x"] [] [] ["sbx"] []).outcome = ExecOutcome.ok := by
  decide

/-- Claim C4 as amended: whenever the launched process terminates with a
success exit status, `execute` returns the unit success `Ok(())` to the
caller and prints the fully captured standard output to its own console
(`println!`); the stdout is not part of the returned value. -/
theorem success_prints_stdout (run : Launcher) (command : List String)
    (files : List Path) (workingDir tmp : Path) (fs fs1 : FS) (out : ProcOutput)
    (hstage : stageFiles workingDir tmp files fs = (none, fs1))
    (hne : command ≠ [])
    (hrun : run command tmp fs1 = Except.ok out)
    (hsucc : out.success = true) :
    execute run command files workingDir tmp fs =
      { outcome := .ok,
        printed := ["Command executed successfully", "Output: " ++ out.stdout],
        fs := removeUnder tmp fs1 } := by
  cases command with
  | nil => exact absurd rfl hne
  | cons c cs => simp [execute, hstage, processPhase, hrun, hsucc]

/-- Witness for the amended claim C4. -/
theorem success_prints_stdout_witness :
    stageFiles [] ["sbx"] [] [] = (none, []) ∧
    (["x"] : List String) ≠ [] ∧
    constRun "hello" ["x"] ["sbx"] [] =
      Except.ok { success := true, stdout := "hello", stderr := "" } ∧
    execute (constRun "hello") ["x"] [] [] ["sbx"] [] =
      { outcome := .ok,
        printed := ["Command executed successfully", "Output: hello"],
        fs := removeUnder ["sbx"] [] } :=
  ⟨rfl, by decide, rfl,
    success_prints_stdout (constRun "hello") ["x"] [] [] ["sbx"] [] []
      { success := true, stdout := "hello", stderr := "" }
      rfl (by decide) rfl rfl⟩

/-! Claim C5: a nonzero exit embeds the captured stderr verbatim. -/

/-- Claim C5: whenever the launched process terminates with an
unsuccessful exit status, `execute` returns the failure carrying the
captured stderr, and its diagnostic embeds that stderr text verbatim as
the suffix of the fixed `Command failed: ` message. -/
theorem nonzero_exit_embeds_stderr (run : Launcher) (command : List String)
    (files : List Path) (workingDir tmp : Path) (fs fs1 : FS) (out : ProcOutput)
    (hstage : stageFiles workingDir tmp files fs = (none, fs1))
    (hne : command ≠ [])
    (hrun : run command tmp fs1 = Except.ok out)
    (hfail : out.success = false) :
    execute run command files workingDir tmp fs =
      { outcome := .err (.commandFailed out.stderr),
        printed := [],
        fs := removeUnder tmp fs1 } ∧
    (ExecError.commandFailed out.stderr).diagnostic =
      "Command failed: " ++ out.stderr := by
  refine ⟨?_, rfl⟩
  cases command with
  | nil => exact absurd rfl hne
  | cons c cs => simp [execute, hstage, processPhase, hrun, hfail]

/-- Witness for claim C5. -/
theorem nonzero_exit_embeds_stderr_witness :
    stageFiles [] ["sbx"] [] [] = (none, []) ∧
    (["x"] : List String) ≠ [] ∧
    failRun "boom" ["x"] ["sbx"] [] =
      Except.ok { success := false, stdout := "", stderr := "boom" } ∧
    (execute (failRun "boom") ["x"] [] [] ["sbx"] [] =
      { outcome := .err (.commandFailed "boom"),
        printed := [],
        fs := removeUnder ["sbx"] [] } ∧
    (ExecError.commandFailed "boom").diagnostic = "Command failed: " ++ "boom") :=
  ⟨rfl, by decide, rfl,
    nonzero_exit_embeds_stderr (failRun "boom") ["x"] [] [] ["sbx"] [] []
      { success := false, stdout := "", stderr := "boom" }
      rfl (by decide) rfl rfl⟩

/-! Claim C6: launch failure vs nonzero exit. -/

/-- Diagnostics of a launch failure and of a nonzero exit can never
coincide: one message begins `Failed to execute command: `, the other
`Command failed: `. -/
theorem launch_diag_ne_exit_diag (cause stderr : String) :
    (ExecError.launchFailed cause).diagnostic ≠
      (ExecError.commandFailed stderr).diagnostic := by
  intro h
  simp only [ExecError.diagnostic] at h
  have hd := congrArg String.data h
  simp [String.data_append] at hd

/-- Claim C6: a failure to launch the process at all and a launched
command exiting nonzero are classified differently.  Under identical
staging, a launcher error surfaces as `launchFailed` while a nonzero exit
surfaces as `commandFailed`; the two errors are distinct values and their
diagnostic strings can never be equal. -/
theorem launch_failure_distinct (run1 run2 : Launcher) (command : List String)
    (files : List Path) (workingDir tmp : Path) (fs fs1 : FS)
    (cause : String) (out : ProcOutput)
    (hstage : stageFiles workingDir tmp files fs = (none, fs1))
    (hne : command ≠ [])
    (h1 : run1 command tmp fs1 = Except.error cause)
    (h2 : run2 command tmp fs1 = Except.ok out)
    (hfail : out.success = false) :
    (execute run1 command files workingDir tmp fs).outcome =
      .err (.launchFailed cause) ∧
    (execute run2 command files workingDir tmp fs).outcome =
      .err (.commandFailed out.stderr) ∧
    ExecError.launchFailed cause ≠ ExecError.commandFailed out.stderr ∧
    (ExecError.launchFailed cause).diagnostic ≠
      (ExecError.commandFailed out.stderr).diagnostic := by
  refine ⟨?_, ?_, by simp, launch_diag_ne_exit_diag cause out.stderr⟩
  · cases command with
    | nil => exact absurd rfl hne
    | cons c cs => simp [execute, hstage, processPhase, h1]
  · cases command with
    | nil => exact absurd rfl hne
    | cons c cs => simp [execute, hstage, processPhase, h2, hfail]

/-- Witness for claim C6: `cat` invoked with no argument fails to launch
under the model launcher that cannot find the executable, while a
launched child exiting nonzero yields the other classification. -/
theorem launch_failure_distinct_witness :
    stageFiles [] ["sbx"] [] [] = (none, []) ∧
    (["x"] : List String) ≠ [] ∧
    noLaunchRun "No such file or directory (os error 2)" ["x"] ["sbx"] [] =
      Except.error "No such file or directory (os error 2)" ∧
    failRun "boom" ["x"] ["sbx"] [] =
      Except.ok { success := false, stdout := "", stderr := "boom" } ∧
    ((execute (noLaunchRun "No such file or directory (os error 2)") ["x"] [] [] ["sbx"] []).outcome =
      .err (.launchFailed "No such file or directory (os error 2)") ∧
    (execute (failRun "boom") ["x"] [] [] ["sbx"] []).outcome =
      .err (.commandFailed "boom") ∧
    ExecError.launchFailed "No such file or directory (os error 2)" ≠
      ExecError.commandFailed "boom" ∧
    (ExecError.launchFailed "No such file or directory (os error 2)").diagnostic ≠
      (ExecError.commandFailed "boom").diagnostic) :=
  ⟨rfl, by decide, rfl, rfl,
    launch_failure_distinct (noLaunchRun "No such file or directory (os error 2)")
      (failRun "boom") ["x"] [] [] ["sbx"] [] []
      "No such file or directory (os error 2)"
      { success := false, stdout := "", stderr := "boom" }
      rfl (by decide) rfl rfl rfl⟩

/-! Validity of a staged file, and the exact description of staging. -/

/-- A well-formed staging input: the file lexically extends the working
directory, its path is clean (no `.` or `..` components, hence already
normalized), it does not lie below the temporary directory, and a regular
file exists at it. -/
def validFile (workingDir tmp : Path) (fs : FS) (f : Path) : Bool :=
  match stripPref f workingDir with
  | none => false
  | some _ => cleanPath f && (!(hasPref tmp f) && (lookupFS fs f).isSome)

/-- Every file of the list is a well-formed staging input. -/
def allValid (workingDir tmp : Path) (fs : FS) (files : List Path) : Bool :=
  files.all (validFile workingDir tmp fs)

/-- The sandbox copy of one file: its content, placed below the
temporary directory at its path relative to the working directory. -/
def copyEntry (workingDir tmp : Path) (fs : FS) (f : Path) : Path × String :=
  (tmp ++ (stripPref f workingDir).getD [], (lookupFS fs f).getD "")

/-- All sandbox copies, reversed so that the head of the association
list is the copy staged last (matching overwrite order). -/
def copyList (workingDir tmp : Path) (fs : FS) (files : List Path) : FS :=
  (files.map (copyEntry workingDir tmp fs)).reverse

/-- The filesystem after staging: the sandbox copies on top of the
original filesystem. -/
def stagedWorld (workingDir tmp : Path) (fs : FS) (files : List Path) : FS :=
  copyList workingDir tmp fs files ++ fs

theorem validFile_spec (workingDir tmp : Path) (fs : FS) (f : Path)
    (h : validFile workingDir tmp fs f = true) :
    ∃ rel c, stripPref f workingDir = some rel ∧ cleanPath f = true ∧
      hasPref tmp f = false ∧ lookupFS fs f = some c := by
  unfold validFile at h
  cases hs : stripPref f workingDir with
  | none => rw [hs] at h; cases h
  | some rel =>
    rw [hs] at h
    simp only [Bool.and_eq_true, Bool.not_eq_true', Option.isSome_iff_exists] at h
    obtain ⟨hc, hn, c, hl⟩ := h
    exact ⟨rel, c, rfl, hc, hn, hl⟩

theorem lookupFS_copy_pres (workingDir tmp : Path) (fs : FS)
    (rel : Path) (c : String) (g : Path)
    (hg : validFile workingDir tmp fs g = true) :
    lookupFS ((tmp ++ rel, c) :: fs) g = lookupFS fs g := by
  obtain ⟨relg, cg, hsg, hcg, hng, hlg⟩ := validFile_spec _ _ _ _ hg
  apply lookupFS_cons_ne
  intro hkey
  have hpre : hasPref tmp g = true := by
    rw [← hkey]; exact hasPref_append tmp rel
  rw [hng] at hpre
  exact Bool.false_ne_true hpre

theorem validFile_copy_pres (workingDir tmp : Path) (fs : FS)
    (rel : Path) (c : String) (g : Path)
    (hg : validFile workingDir tmp fs g = true) :
    validFile workingDir tmp ((tmp ++ rel, c) :: fs) g = true := by
  have hl := lookupFS_copy_pres workingDir tmp fs rel c g hg
  unfold validFile at hg ⊢
  cases hs : stripPref g workingDir with
  | none => rw [hs] at hg; cases hg
  | some relg => rw [hs] at hg; rw [hl]; exact hg

/-- The staging loop on well-formed inputs: it succeeds and produces
exactly the sandbox copies on top of the untouched filesystem. -/
theorem stageFiles_of_valid (workingDir tmp : Path) (files : List Path)
    (fs : FS) (htmp : cleanPath tmp = true)
    (hvalid : allValid workingDir tmp fs files = true) :
    stageFiles workingDir tmp files fs =
      (none, stagedWorld workingDir tmp fs files) := by
  induction files generalizing fs with
  | nil => simp [stageFiles, stagedWorld, copyList]
  | cons f rest ih =>
    have hv : validFile workingDir tmp fs f = true ∧
        allValid workingDir tmp fs rest = true := by
      simpa [allValid] using hvalid
    obtain ⟨rel, c, hs, hclean, hnp, hlook⟩ := validFile_spec _ _ _ _ hv.1
    have hf_eq : f = workingDir ++ rel := stripPref_eq_append f workingDir rel hs
    have hclean_rel : cleanPath rel = true := by
      have h1 := hclean
      rw [hf_eq, cleanPath_append, Bool.and_eq_true] at h1
      exact h1.2
    have hnorm_f : normalize f = f := normalize_of_clean f hclean
    have hclean_dest : cleanPath (tmp ++ rel) = true := by
      rw [cleanPath_append, htmp, hclean_rel]; rfl
    have hnorm_dest : normalize (tmp ++ rel) = tmp ++ rel :=
      normalize_of_clean _ hclean_dest
    have hstep : stageFiles workingDir tmp (f :: rest) fs =
        stageFiles workingDir tmp rest ((tmp ++ rel, c) :: fs) := by
      simp [stageFiles, hs, hnorm_f, hlook, hnorm_dest]
    have hvalid2 : allValid workingDir tmp ((tmp ++ rel, c) :: fs) rest = true := by
      rw [allValid, List.all_eq_true]
      intro g hg
      exact validFile_copy_pres workingDir tmp fs rel c g
        ((List.all_eq_true.mp hv.2) g hg)
    have hcopy_pres : copyList workingDir tmp ((tmp ++ rel, c) :: fs) rest =
        copyList workingDir tmp fs rest := by
      unfold copyList
      congr 1
      apply List.map_congr_left
      intro g hg
      unfold copyEntry
      rw [lookupFS_copy_pres workingDir tmp fs rel c g
        ((List.all_eq_true.mp hv.2) g hg)]
    rw [hstep, ih ((tmp ++ rel, c) :: fs) hvalid2]
    unfold stagedWorld
    rw [hcopy_pres]
    have hentry : copyEntry workingDir tmp fs f = (tmp ++ rel, c) := by
      unfold copyEntry
      rw [hs, hlook]
      rfl
    simp [copyList, hentry, List.append_assoc]

/-- Looking up a staged copy returns exactly the bytes of its source
file. -/
theorem lookup_staged_copy (workingDir tmp : Path) (fs : FS)
    (files : List Path) (f rel : Path)
    (hvalid : allValid workingDir tmp fs files = true)
    (hf : f ∈ files) (hs : stripPref f workingDir = some rel) :
    lookupFS (stagedWorld workingDir tmp fs files) (tmp ++ rel) =
      lookupFS fs f := by
  obtain ⟨rel', c, hs', hc, hn, hl⟩ :=
    validFile_spec _ _ _ _ ((List.all_eq_true.mp hvalid) f hf)
  have hconst : ∀ e ∈ copyList workingDir tmp fs files,
      e.fst = tmp ++ rel → e.snd = c := by
    intro e he hk
    rw [copyList, List.mem_reverse, List.mem_map] at he
    obtain ⟨g, hg, hge⟩ := he
    obtain ⟨relg, cg, hsg, hcg2, hng, hlg⟩ :=
      validFile_spec _ _ _ _ ((List.all_eq_true.mp hvalid) g hg)
    subst hge
    unfold copyEntry at hk ⊢
    rw [hsg] at hk ⊢
    simp only [Option.getD_some] at hk ⊢
    have hrelg : relg = rel := (List.append_right_inj tmp).mp hk
    have hgf : g = f := by
      rw [stripPref_eq_append g workingDir relg hsg,
        stripPref_eq_append f workingDir rel hs, hrelg]
    rw [hgf, hl]
    rfl
  have hex : ∃ e ∈ copyList workingDir tmp fs files, e.fst = tmp ++ rel := by
    refine ⟨copyEntry workingDir tmp fs f, ?_, ?_⟩
    · rw [copyList, List.mem_reverse, List.mem_map]
      exact ⟨f, hf, rfl⟩
    · unfold copyEntry
      rw [hs]
      rfl
  have hcopy := lookupFS_const _ _ c hconst hex
  rw [stagedWorld, lookupFS_append, hcopy, hl]

/-- Below the fresh temporary directory, the staged world holds nothing
except the sandbox copies of the listed files. -/
theorem staged_under_tmp_only (workingDir tmp : Path) (fs : FS)
    (files : List Path) (p : Path)
    (hvalid : allValid workingDir tmp fs files = true)
    (hfresh : freshUnder tmp fs = true)
    (hp : hasPref tmp p = true)
    (hsome : lookupFS (stagedWorld workingDir tmp fs files) p ≠ none) :
    ∃ f ∈ files, ∃ rel, stripPref f workingDir = some rel ∧ p = tmp ++ rel := by
  cases hl : lookupFS (stagedWorld workingDir tmp fs files) p with
  | none => exact absurd hl hsome
  | some v =>
    have hmem := mem_of_lookupFS _ _ _ hl
    rw [stagedWorld, List.mem_append] at hmem
    rcases hmem with h | h
    · rw [copyList, List.mem_reverse, List.mem_map] at h
      obtain ⟨g, hg, hge⟩ := h
      obtain ⟨relg, cg, hsg, hcg, hng, hlg⟩ :=
        validFile_spec _ _ _ _ ((List.all_eq_true.mp hvalid) g hg)
      refine ⟨g, hg, relg, hsg, ?_⟩
      have hkey := congrArg Prod.fst hge
      unfold copyEntry at hkey
      rw [hsg] at hkey
      simpa using hkey.symm
    · have hfr := (List.all_eq_true.mp hfresh) (p, v) h
      simp only [Bool.not_eq_true'] at hfr
      rw [hp] at hfr
      exact Bool.noConfusion hfr

/-- Outside the temporary directory the staged world looks up exactly to
the original filesystem: staging well-formed files touches nothing
else. -/
theorem staged_outside_unchanged (workingDir tmp : Path) (fs : FS)
    (files : List Path) (p : Path)
    (hvalid : allValid workingDir tmp fs files = true)
    (hp : hasPref tmp p = false) :
    lookupFS (stagedWorld workingDir tmp fs files) p = lookupFS fs p := by
  have hnone : lookupFS (copyList workingDir tmp fs files) p = none := by
    apply lookupFS_eq_none_of
    intro e he
    rw [copyList, List.mem_reverse, List.mem_map] at he
    obtain ⟨g, hg, hge⟩ := he
    obtain ⟨relg, cg, hsg, hcg, hng, hlg⟩ :=
      validFile_spec _ _ _ _ ((List.all_eq_true.mp hvalid) g hg)
    subst hge
    unfold copyEntry
    rw [hsg]
    simp only [Option.getD_some]
    intro hkey
    have hpre : hasPref tmp p = true := by
      rw [← hkey]; exact hasPref_append tmp relg
    rw [hp] at hpre
    exact Bool.false_ne_true hpre
  rw [stagedWorld, lookupFS_append, hnone]

/-- Cleaning up the temporary directory of the staged world restores the
original filesystem exactly. -/
theorem removeUnder_stagedWorld (workingDir tmp : Path) (fs : FS)
    (files : List Path)
    (hvalid : allValid workingDir tmp fs files = true)
    (hfresh : freshUnder tmp fs = true) :
    removeUnder tmp (stagedWorld workingDir tmp fs files) = fs := by
  rw [stagedWorld, removeUnder, List.filter_append]
  have h1 : List.filter (fun e => !(hasPref tmp e.fst))
      (copyList workingDir tmp fs files) = [] := by
    rw [List.filter_eq_nil_iff]
    intro e he
    rw [copyList, List.mem_reverse, List.mem_map] at he
    obtain ⟨g, hg, hge⟩ := he
    obtain ⟨relg, cg, hsg, hcg, hng, hlg⟩ :=
      validFile_spec _ _ _ _ ((List.all_eq_true.mp hvalid) g hg)
    subst hge
    unfold copyEntry
    rw [hsg]
    simp [hasPref_append]
  have h2 : List.filter (fun e => !(hasPref tmp e.fst)) fs = fs :=
    List.filter_eq_self.mpr (List.all_eq_true.mp hfresh)
  rw [h1, h2, List.nil_append]

/-! Claim C8: exact staging before launch. -/

/-- Claim C8: when every listed file is a readable regular file under the
working directory given by a clean path (and the fresh temporary
directory is clean), staging succeeds and produces the staged world:
each file is present there as a byte-identical copy at its exact relative
path below the temporary directory, nothing else lies below the
temporary directory, and the rest of the filesystem is untouched.  The
command is launched only afterwards: `execute` runs its process phase on
the fully staged world, so the child never observes a partially staged
sandbox. -/
theorem staging_exact_then_launch (run : Launcher) (command : List String)
    (files : List Path) (workingDir tmp : Path) (fs : FS)
    (htmp : cleanPath tmp = true)
    (hfresh : freshUnder tmp fs = true)
    (hvalid : allValid workingDir tmp fs files = true) :
    stageFiles workingDir tmp files fs =
      (none, stagedWorld workingDir tmp fs files) ∧
    (∀ f ∈ files, ∀ rel, stripPref f workingDir = some rel →
      lookupFS (stagedWorld workingDir tmp fs files) (tmp ++ rel) =
        lookupFS fs f) ∧
    (∀ p, hasPref tmp p = true →
      lookupFS (stagedWorld workingDir tmp fs files) p ≠ none →
      ∃ f ∈ files, ∃ rel, stripPref f workingDir = some rel ∧ p = tmp ++ rel) ∧
    (∀ p, hasPref tmp p = false →
      lookupFS (stagedWorld workingDir tmp fs files) p = lookupFS fs p) ∧
    execute run command files workingDir tmp fs =
      { outcome := (processPhase run command tmp
          (stagedWorld workingDir tmp fs files)).fst,
        printed := (processPhase run command tmp
          (stagedWorld workingDir tmp fs files)).snd,
        fs := removeUnder tmp (stagedWorld workingDir tmp fs files) } := by
  have hstage := stageFiles_of_valid workingDir tmp files fs htmp hvalid
  refine ⟨hstage, ?_, ?_, ?_, ?_⟩
  · intro f hf rel hs
    exact lookup_staged_copy workingDir tmp fs files f rel hvalid hf hs
  · intro p hp hsome
    exact staged_under_tmp_only workingDir tmp fs files p hvalid hfresh hp hsome
  · intro p hp
    exact staged_outside_unchanged workingDir tmp fs files p hvalid hp
  · simp [execute, hstage]

/-- Witness for claim C8, at the scenario of the specification: the file
`/tmp/work/data/input.txt` containing `hello` is staged and
`cat data/input.txt` prints it from inside the sandbox. -/
theorem staging_exact_then_launch_witness :
    cleanPath ["sbx"] = true ∧
    freshUnder ["sbx"] [(["tmp", "work", "data", "input.txt"], "hello")] = true ∧
    allValid ["tmp", "work"] ["sbx"] [(["tmp", "work", "data", "input.txt"], "hello")]
      [["tmp", "work", "data", "input.txt"]] = true ∧
    (stageFiles ["tmp", "work"] ["sbx"] [["tmp", "work", "data", "input.txt"]]
        [(["tmp", "work", "data", "input.txt"], "hello")] =
      (none, stagedWorld ["tmp", "work"] ["sbx"]
        [(["tmp", "work", "data", "input.txt"], "hello")]
        [["tmp", "work", "data", "input.txt"]]) ∧
    (∀ f ∈ [["tmp", "work", "data", "input.txt"]], ∀ rel,
      stripPref f ["tmp", "work"] = some rel →
      lookupFS (stagedWorld ["tmp", "work"] ["sbx"]
          [(["tmp", "work", "data", "input.txt"], "hello")]
          [["tmp", "work", "data", "input.txt"]]) (["sbx"] ++ rel) =
        lookupFS [(["tmp", "work", "data", "input.txt"], "hello")] f) ∧
    (∀ p, hasPref ["sbx"] p = true →
      lookupFS (stagedWorld ["tmp", "work"] ["sbx"]
          [(["tmp", "work", "data", "input.txt"], "hello")]
          [["tmp", "work", "data", "input.txt"]]) p ≠ none →
      ∃ f ∈ [["tmp", "work", "data", "input.txt"]], ∃ rel,
        stripPref f ["tmp", "work"] = some rel ∧ p = ["sbx"] ++ rel) ∧
    (∀ p, hasPref ["sbx"] p = false →
      lookupFS (stagedWorld ["tmp", "work"] ["sbx"]
          [(["tmp", "work", "data", "input.txt"], "hello")]
          [["tmp", "work", "data", "input.txt"]]) p =
        lookupFS [(["tmp", "work", "data", "input.txt"], "hello")] p) ∧
    execute catRun ["cat", "data/input.txt"] [["tmp", "work", "data", "input.txt"]]
        ["tmp", "work"] ["sbx"] [(["tmp", "work", "data", "input.txt"], "hello")] =
      { outcome := (processPhase catRun ["cat", "data/input.txt"] ["sbx"]
          (stagedWorld ["tmp", "work"] ["sbx"]
            [(["tmp", "work", "data", "input.txt"], "hello")]
            [["tmp", "work", "data", "input.txt"]])).fst,
        printed := (processPhase catRun ["cat", "data/input.txt"] ["sbx"]
          (stagedWorld ["tmp", "work"] ["sbx"]
            [(["tmp", "work", "data", "input.txt"], "hello")]
            [["tmp", "work", "data", "input.txt"]])).snd,
        fs := removeUnder ["sbx"] (stagedWorld ["tmp", "work"] ["sbx"]
          [(["tmp", "work", "data", "input.txt"], "hello")]
          [["tmp", "work", "data", "input.txt"]]) }) :=
  ⟨by decide, by decide, by decide,
    staging_exact_then_launch catRun ["cat", "data/input.txt"]
      [["tmp", "work", "data", "input.txt"]] ["tmp", "work"] ["sbx"]
      [(["tmp", "work", "data", "input.txt"], "hello")]
      (by decide) (by decide) (by decide)⟩

/-! Claim C9: repeatability and freedom from leaked state. -/

/-- Claim C9 fails on the code: an invocation can leak state that alters
the next invocation.  With the root `/tmp/work`, the files
`/tmp/work/../y` and `/tmp/work/../tmp/y` pass the lexical containment
check, and staging writes their copies through `..` to `/y` and `/tmp/y`
— outside the sandbox, where cleanup does not remove them.  Running
`cat /y` twice with identical arguments (the deterministic `cat`, the
same files, the same root) prints `A` the first time and `B` the second
time: the first invocation overwrote host files that the second
invocation reads.  Both invocations classify as success. -/
theorem state_leak_between_invocations :
    (execute catRun ["cat", "/y"]
        [["tmp", "work", "..", "y"], ["tmp", "work", "..", "tmp", "y"]]
        ["tmp", "work"] ["sbx"]
        [(["tmp", "y"], "A"), (["tmp", "tmp", "y"], "B")]).outcome =
      ExecOutcome.ok ∧
    (execute catRun ["cat", "/y"]
        [["tmp", "work", "..", "y"], ["tmp", "work", "..", "tmp", "y"]]
        ["tmp", "work"] ["sbx"]
        [(["tmp", "y"], "A"), (["tmp", "tmp", "y"], "B")]).printed =
      ["Command executed successfully", "Output: A"] ∧
    (execute catRun ["cat", "/y"]
        [["tmp", "work", "..", "y"], ["tmp", "work", "..", "tmp", "y"]]
        ["tmp", "work"] ["sbx2"]
        (execute catRun ["cat", "/y"]
          [["tmp", "work", "..", "y"], ["tmp", "work", "..", "tmp", "y"]]
          ["tmp", "work"] ["sbx"]
          [(["tmp", "y"], "A"), (["tmp", "tmp", "y"], "B")]).fs).outcome =
      ExecOutcome.ok ∧
    (execute catRun ["cat", "/y"]
        [["tmp", "work", "..", "y"], ["tmp", "work", "..", "tmp", "y"]]
        ["tmp", "work"] ["sbx2"]
        (execute catRun ["cat", "/y"]
          [["tmp", "work", "..", "y"], ["tmp", "work", "..", "tmp", "y"]]
          ["tmp", "work"] ["sbx"]
          [(["tmp", "y"], "A"), (["tmp", "tmp", "y"], "B")]).fs).printed =
      ["Command executed successfully", "Output: B"] := by decide

/-- Claim C9 as amended: the executor holds no mutable state (all its
values are equal), and for well-formed inputs — every staged file clean
and contained, the clean temporary directory fresh — an invocation
restores the filesystem exactly, so repeating the invocation on the
world it left behind yields the identical result.  The restriction to
clean paths is forced: a `..`-escaping file is staged outside the
sandbox, survives cleanup, and can alter the next invocation. -/
theorem stateless_and_repeatable (run : Launcher) (command : List String)
    (files : List Path) (workingDir tmp : Path) (fs : FS)
    (htmp : cleanPath tmp = true)
    (hfresh : freshUnder tmp fs = true)
    (hvalid : allValid workingDir tmp fs files = true) :
    (∀ x y : LinuxCommandExecutor, x = y) ∧
    (execute run command files workingDir tmp fs).fs = fs ∧
    execute run command files workingDir tmp
        ((execute run command files workingDir tmp fs).fs) =
      execute run command files workingDir tmp fs := by
  have hstage := stageFiles_of_valid workingDir tmp files fs htmp hvalid
  have hfs : (execute run command files workingDir tmp fs).fs = fs := by
    simp only [execute, hstage]
    exact removeUnder_stagedWorld workingDir tmp fs files hvalid hfresh
  exact ⟨fun x y => by cases x; cases y; rfl, hfs, by rw [hfs]⟩

/-- Witness for the amended claim C9. -/
theorem stateless_and_repeatable_witness :
    cleanPath ["sbx"] = true ∧
    freshUnder ["sbx"] [(["tmp", "work", "data", "input.txt"], "hello")] = true ∧
    allValid ["tmp", "work"] ["sbx"] [(["tmp", "work", "data", "input.txt"], "hello")]
      [["tmp", "work", "data", "input.txt"]] = true ∧
    ((∀ x y : LinuxCommandExecutor, x = y) ∧
    (execute catRun ["cat", "data/input.txt"] [["tmp", "work", "data", "input.txt"]]
        ["tmp", "work"] ["sbx"]
        [(["tmp", "work", "data", "input.txt"], "hello")]).fs =
      [(["tmp", "work", "data", "input.txt"], "hello")] ∧
    execute catRun ["cat", "data/input.txt"] [["tmp", "work", "data", "input.txt"]]
        ["tmp", "work"] ["sbx"]
        ((execute catRun ["cat", "data/input.txt"] [["tmp", "work", "data", "input.txt"]]
          ["tmp", "work"] ["sbx"]
          [(["tmp", "work", "data", "input.txt"], "hello")]).fs) =
      execute catRun ["cat", "data/input.txt"] [["tmp", "work", "data", "input.txt"]]
        ["tmp", "work"] ["sbx"]
        [(["tmp", "work", "data", "input.txt"], "hello")]) :=
  ⟨by decide, by decide, by decide,
    stateless_and_repeatable catRun ["cat", "data/input.txt"]
      [["tmp", "work", "data", "input.txt"]] ["tmp", "work"] ["sbx"]
      [(["tmp", "work", "data", "input.txt"], "hello")]
      (by decide) (by decide) (by decide)⟩

end Sandbox
